import Mathlib

/-
Verification development for the sql-connect library: a shallow embedding of
its statement splitter (src/parsing.rs), busy-backoff retry primitives
(src/backoff.rs), sqlite execution and row streaming (src/backend/sqlite.rs),
value decoding (src/value.rs) and transaction lifecycle (src/transaction.rs),
together with theorems settling the specification's claims about them.

Modelling conventions:
- Rust strings are modelled as `List Char`; machine integers as `Nat`/`Int`
  with explicit `% 2 ^ w` where Rust `as` casts truncate.
- Panicking paths are modelled as `none`; `Result<T>` as `Except ErrorKind T`.
- The native sqlite engine is an external boundary: a prepared statement's
  successive `sqlite3_step` outcomes are modelled as a script
  (`List StepStatus`); an exhausted script keeps reporting completion.
- The timer capability (futures_timer::Delay) is abstracted: polling a delay
  that was just created or reset to a positive duration reports Pending.
-/

/- ========= src/error.rs ========= -/

/-- Mirror of `ErrorKind` (src/error.rs). Payloads irrelevant to the claims
are dropped. -/
inductive ErrorKind where
  | invalidString
  | invalidPath
  | invalidQuery
  | failure
  | busy
  | schemaChanged
deriving DecidableEq, Repr

/-- Mirror of `ErrorKind::is_busy` (src/error.rs). -/
def ErrorKind.is_busy : ErrorKind → Bool
  | .busy => true
  | _ => false

/- ========= src/value.rs ========= -/

/-- Mirror of `Value` (src/value.rs). The `Float` payload (an f64) is never
inspected by the integer decoders under study, so it is dropped; the
borrowed/owned (`Mown`) distinction of `Text`/`Blob` is likewise dropped. -/
inductive Value where
  | integer (i : Int)
  | float
  | text (s : String)
  | blob (b : List Nat)
  | null
deriving DecidableEq

def Value.isInteger : Value → Bool
  | .integer _ => true
  | _ => false

/-- Mirror of `impl FromValue for u32` (src/value.rs):
`Value::Integer(i) if i >= 0 => i as u32`, any other case panics (`none`).
The Rust cast `i as u32` keeps the low 32 bits. -/
def fromValue_u32 : Value → Option Nat
  | .integer i => if 0 ≤ i then some (i.toNat % 2 ^ 32) else none
  | _ => none

/-- Mirror of `impl FromValue for i32` (src/value.rs):
`Value::Integer(i) => i as i32` (two's-complement truncation), any other
variant panics. -/
def fromValue_i32 : Value → Option Int
  | .integer i => some ((i + 2 ^ 31) % 2 ^ 32 - 2 ^ 31)
  | _ => none

/-- Mirror of `impl FromValue for usize` (src/value.rs), on a 64-bit target:
`Value::Integer(i) if i >= 0 => i as usize`. -/
def fromValue_usize : Value → Option Nat
  | .integer i => if 0 ≤ i then some (i.toNat % 2 ^ 64) else none
  | _ => none

/-- Mirror of `impl FromValue for u64` (src/value.rs). -/
def fromValue_u64 : Value → Option Nat
  | .integer i => if 0 ≤ i then some (i.toNat % 2 ^ 64) else none
  | _ => none

/-- Mirror of `impl FromValue for i64` (src/value.rs):
`Value::Integer(i) => i as i64` (the identity). -/
def fromValue_i64 : Value → Option Int
  | .integer i => some i
  | _ => none

/- ========= src/parsing.rs ========= -/

/-- Mirror of the lexical-context `State` enum (src/parsing.rs). -/
inductive LexState where
  | group
  | string
deriving DecidableEq, Repr

/-- The single-quote character `'` (code 39), the sqlite string delimiter. -/
def qc : Char := Char.ofNat 39

/-- End of the scan (src/parsing.rs lines 65-71): the unconsumed suffix, which
is exactly the accumulated current segment, is emitted iff it is nonempty. -/
def finishScan (acc : List Char) : List (List Char) :=
  if acc.isEmpty then [] else [acc.reverse]

/-- Mirror of the scanning loop of `Statements::next` (src/parsing.rs lines
20-72), fused over the whole input. The first argument is the stack of
lexical contexts (`self.state`, head = top), the second accumulates the
current segment in reverse (the characters since the last cut point), the
third is the remaining input. At top level a `;` cuts a segment; `'` pushes
a string context; `(` pushes a group context. Inside a group, `(` nests,
`)` pops, `'` pushes a string context and `;` is inert. Inside a string,
`''` is an escaped quote (both characters consumed, context kept) and a
lone `'` pops the context. -/
def splitAux : List LexState → List Char → List Char → List (List Char)
  | _, acc, [] => finishScan acc
  | [], acc, c :: rest =>
    if c = ';' then acc.reverse :: splitAux [] [] rest
    else if c = qc then splitAux [.string] (c :: acc) rest
    else if c = '(' then splitAux [.group] (c :: acc) rest
    else splitAux [] (c :: acc) rest
  | .group :: s, acc, c :: rest =>
    if c = ')' then splitAux s (c :: acc) rest
    else if c = '(' then splitAux (.group :: .group :: s) (c :: acc) rest
    else if c = qc then splitAux (.string :: .group :: s) (c :: acc) rest
    else splitAux (.group :: s) (c :: acc) rest
  | .string :: s, acc, [c] =>
    if c = qc then splitAux s (c :: acc) []
    else splitAux (.string :: s) (c :: acc) []
  | .string :: s, acc, c :: d :: rest2 =>
    if c = qc then
      if d = qc then splitAux (.string :: s) (d :: c :: acc) rest2
      else splitAux s (c :: acc) (d :: rest2)
    else splitAux (.string :: s) (c :: acc) (d :: rest2)
termination_by _ _ l => l.length
decreasing_by all_goals (simp <;> omega)

/-- Mirror of `split_statement_list` (src/parsing.rs lines 75-82): the list of
segments yielded by iterating `Statements::next` to exhaustion. -/
def split_statement_list (sql : List Char) : List (List Char) :=
  splitAux [] [] sql

/-- Concatenation of segments with `;` as separator (the round-trip join of
the spec's splitter property). -/
def joinSemi : List (List Char) → List Char
  | [] => []
  | [s] => s
  | s :: rest => s ++ ';' :: joinSemi rest

/- ========= src/backoff.rs ========= -/

/-- Mirror of `BackoffState` (src/backoff.rs lines 11-14). `delay` holds the
duration the timer is currently armed with (`None` before the first arm);
`backoff` is the remaining schedule of durations the generator will yield
(`next_backoff` returns them in order, then `None` forever). -/
structure BackoffState where
  delay : Option Nat
  backoff : List Nat
deriving DecidableEq, Repr

/-- Mirror of `BackoffState::poll` (src/backoff.rs lines 26-53). One loop
iteration: ask `next_backoff`; if the schedule is exhausted, fail with a
`Busy` error; otherwise create or reset the delay timer to the yielded
duration and poll it. A delay freshly reset to a positive duration polls
Pending, so the loop breaks and the call returns `Ok(())` (the caller then
suspends and retries once the delay elapses). -/
def BackoffState.poll (b : BackoffState) : Except ErrorKind Unit × BackoffState :=
  match b.backoff with
  | [] => (.error .busy, b)
  | d :: rest => (.ok (), { delay := some d, backoff := rest })

/-- Mirror of `BackoffFuture` (src/backoff.rs lines 57-61). The wrapped inner
future is modelled by the outcome of each of its polls in order: `inner k`
is what the `k`-th poll (0-based) of the inner future returns, `none` for
Pending and `some r` for `Ready(r)`. `innerPolls` counts the polls made so
far. -/
structure BackoffFuture (α : Type) where
  inner : Nat → Option (Except ErrorKind α)
  innerPolls : Nat
  delay : Option Nat
  backoff : List Nat

/-- Whether a ready inner outcome is a busy error (the
`e.kind().is_busy()` guard of src/backoff.rs line 92). -/
def isBusyOutcome {α : Type} : Except ErrorKind α → Bool
  | .error e => e.is_busy
  | .ok _ => false

/-- One iteration of the `loop` in `BackoffFuture::poll` (src/backoff.rs lines
89-114). Result `(some out, f)` means the poll returns `out` (`none` =
Pending, `some r` = Ready r); result `(none, f)` means the loop runs another
iteration. Faithful to the source, in the `delay.is_none()` branch the Delay
is created but NOT polled, and the loop falls through to re-poll the inner
future immediately; only the `delay.is_some()` branch resets and polls the
timer (Pending for a fresh positive reset), suspending the combinator. -/
def bfIter {α : Type} (f : BackoffFuture α) : Option (Option (Except ErrorKind α)) × BackoffFuture α :=
  let f1 : BackoffFuture α := { f with innerPolls := f.innerPolls + 1 }
  match f.inner f.innerPolls with
  | none => (some none, f1)
  | some r =>
    if isBusyOutcome r then
      match f.backoff with
      | d :: rest =>
        match f.delay with
        | none => (none, { f1 with delay := some d, backoff := rest })
        | some _ => (some none, { f1 with delay := some d, backoff := rest })
      | [] => (some (some r), f1)
    else
      (some (some r), f1)

/-- Mirror of `BackoffFuture::poll` (src/backoff.rs lines 89-114): run loop
iterations until one returns. After the first iteration the delay is always
armed, so an iteration can ask to continue at most once: two iterations
always suffice (the final fallback arm is unreachable). -/
def BackoffFuture.poll {α : Type} (f : BackoffFuture α) : Option (Except ErrorKind α) × BackoffFuture α :=
  match bfIter f with
  | (some out, f2) => (out, f2)
  | (none, f2) =>
    match bfIter f2 with
    | (some out, f3) => (out, f3)
    | (none, f3) => (none, f3)

/-- Drive the combinator like an executor: whenever a poll returns Pending,
the armed delay eventually elapses and the future is polled again. `none`
means the fuel ran out before the future resolved. -/
def bfRun {α : Type} (fuel : Nat) (f : BackoffFuture α) : Option (Except ErrorKind α × BackoffFuture α) :=
  match fuel with
  | 0 => none
  | fuel + 1 =>
    match BackoffFuture.poll f with
    | (some r, f2) => some (r, f2)
    | (none, f2) => bfRun fuel f2

/- ========= src/backend/sqlite.rs ========= -/

/-- Mirror of `SqliteError` (src/backend/sqlite.rs lines 44-72): the non-OK
primary status codes of the native engine, as classified by `check`. -/
inductive SqliteError where
  | unknown
  | internal
  | perm
  | abort
  | busy
  | locked
  | noMem
  | readOnly
  | interrupt
  | io
  | corrupt
  | notFound
  | full
  | cantOpen
  | protocol
  | empty
  | schema
  | tooBig
  | constraint
  | mismatch
  | misuse
  | noLFS
  | auth
  | format
  | range
  | notADB
deriving DecidableEq, Repr

/-- Mirror of `From<SqliteError> for crate::Error` (src/backend/sqlite.rs
lines 84-93): `Schema` maps to `SchemaChanged`, every other engine error —
including `Busy` — maps to `Failure`. -/
def sqliteErrorKind : SqliteError → ErrorKind
  | .schema => .schemaChanged
  | _ => .failure

/-- Outcome of one `sqlite3_step` call, as matched by the source:
`SQLITE_DONE`, `SQLITE_ROW`, `SQLITE_BUSY`, or any other status code. -/
inductive StepStatus where
  | done
  | row
  | busy
  | other (e : SqliteError)
deriving DecidableEq, Repr

/-- The engine boundary: a prepared statement carries the script of its
upcoming step outcomes; stepping consumes the head. A statement whose
script is exhausted has completed, and stepping it reports `SQLITE_DONE`. -/
def stepEngine : List StepStatus → StepStatus × List StepStatus
  | [] => (.done, [])
  | s :: rest => (s, rest)

/-- Mirror of `Rows` (src/backend/sqlite.rs lines 309-315). The statement
reference is replaced by explicit passing of the statement's step script. -/
structure Rows where
  column_count : Nat
  first_row : Bool
  backoff : BackoffState

/-- Mirror of `Rows::empty` (src/backend/sqlite.rs lines 318-326); `g` is the
schedule of the fresh `ExponentialBackoff::default()` generator. -/
def Rows.empty (column_count : Nat) (g : List Nat) : Rows :=
  { column_count := column_count, first_row := false, backoff := { delay := none, backoff := g } }

/-- Mirror of `Rows::new` (src/backend/sqlite.rs lines 328-336): like
`Rows.empty` but with the first row already materialized. -/
def Rows.new (column_count : Nat) (g : List Nat) : Rows :=
  { column_count := column_count, first_row := true, backoff := { delay := none, backoff := g } }

/-- Mirror of `Statement::try_execute` (src/backend/sqlite.rs lines 269-290):
read the column count, step once, and map the outcome. `Done` with columns
gives an empty row stream, `Done` without columns gives `None`, `Row` gives
a stream whose first row is materialized, anything else maps through
`check` and the `From<SqliteError>` conversion into an error. -/
def try_execute (g : List Nat) (column_count : Nat) (steps : List StepStatus) :
    Except ErrorKind (Option Rows) × List StepStatus :=
  match stepEngine steps with
  | (.done, rest) =>
    (if 0 < column_count then .ok (some (Rows.empty column_count g)) else .ok none, rest)
  | (.row, rest) => (.ok (some (Rows.new column_count g)), rest)
  | (.busy, rest) => (.error (sqliteErrorKind .busy), rest)
  | (.other e, rest) => (.error (sqliteErrorKind e), rest)

/-- Result of one `poll_next` call on the stream: suspend, yield an item, or
end the stream (`Ready(None)`). The decoded row (`R::from(row)`) is
abstracted to `()` — decoding is modelled separately in the value layer. -/
inductive PollNext where
  | pending
  | yields (x : Except ErrorKind Unit)
  | finished
deriving Repr

/-- Mirror of `Rows::poll_next` (src/backend/sqlite.rs lines 350-378): if the
first row is pre-materialized, emit it without stepping; otherwise step the
engine: `Done` ends the stream, `Row` emits a decoded row, `Busy` polls the
backoff state (Pending while the schedule lasts, a surfaced `Busy` error
once exhausted), any other status surfaces its mapped error. -/
def poll_next (r : Rows) (steps : List StepStatus) : PollNext × Rows × List StepStatus :=
  if r.first_row then (.yields (.ok ()), { r with first_row := false }, steps)
  else
    match stepEngine steps with
    | (.done, rest) => (.finished, r, rest)
    | (.row, rest) => (.yields (.ok ()), r, rest)
    | (.busy, rest) =>
      match r.backoff.poll with
      | (.ok _, b2) => (.pending, { r with backoff := b2 }, rest)
      | (.error e, b2) => (.yields (.error e), { r with backoff := b2 }, rest)
    | (.other e, rest) => (.yields (.error (sqliteErrorKind e)), r, rest)

/-- Consume a row stream to its end, collecting the yielded items: Pending
polls again after the backoff delay elapses; `none` means the fuel ran out
before the stream ended. -/
def consumeRows (fuel : Nat) (r : Rows) (steps : List StepStatus) :
    Option (List (Except ErrorKind Unit)) :=
  match fuel with
  | 0 => none
  | fuel + 1 =>
    match poll_next r steps with
    | (.pending, r2, st2) => consumeRows fuel r2 st2
    | (.finished, _, _) => some []
    | (.yields x, r2, st2) => Option.map (fun l => x :: l) (consumeRows fuel r2 st2)

/-- Mirror of `SavepointCapable::anonymous_savepoint_name` for `Connection`
(src/backend/sqlite.rs lines 226-232): format `"anon{i}"` from the current
counter, then increment it. The `usize` counter is modelled as `Nat`. -/
structure Connection where
  next_savepoint : Nat
deriving DecidableEq, Repr

def anonymous_savepoint_name (c : Connection) : String × Connection :=
  ("anon" ++ Nat.repr c.next_savepoint, { next_savepoint := c.next_savepoint + 1 })

/-- The connection state after `k` calls to `anonymous_savepoint_name`. -/
def iterConn (c : Connection) : Nat → Connection
  | 0 => c
  | k + 1 => (anonymous_savepoint_name (iterConn c k)).2

/-- The name returned by the `k`-th call (0-based) to
`anonymous_savepoint_name` on a connection starting in state `c`. -/
def nameAt (c : Connection) (k : Nat) : String :=
  (anonymous_savepoint_name (iterConn c k)).1

/- ========= src/transaction.rs ========= -/

/-- Mirror of `Transaction` (src/transaction.rs lines 66-71). The two prepared
resolve statements are identified by handles modelled as `Nat`: `endStmt`
stands for the source field `end` (a Lean keyword, the resolve-as-success
statement) and `rollbackStmt` for the source field `rollback` (renamed to
leave room for the method of the same name, the resolve-as-failure
statement). The borrowed connection is not needed by the claims. -/
structure Transaction where
  done : Bool
  endStmt : Option Nat
  rollbackStmt : Option Nat
deriving DecidableEq, Repr

/-- Mirror of `Transaction::commit` (src/transaction.rs lines 116-126),
parameterized by the engine's response `exec s` to executing statement `s`.
Returns the call's result, the transaction state it leaves behind (the value
then dropped at the end of `commit`), and the statements executed. If `done`
is set nothing happens and the call succeeds immediately; otherwise `done`
is set, the `end` statement is taken out and executed, and its result
propagated. -/
def Transaction.commit (exec : Nat → Except ErrorKind Unit) (t : Transaction) :
    Except ErrorKind Unit × Transaction × List Nat :=
  if t.done then (.ok (), t, [])
  else
    match t.endStmt with
    | some s => (exec s, { t with done := true, endStmt := none }, [s])
    | none => (.ok (), { t with done := true, endStmt := none }, [])

/-- Mirror of `Transaction::rollback` (src/transaction.rs lines 128-138):
symmetric to `commit`, executing the `rollback` statement instead. -/
def Transaction.rollback (exec : Nat → Except ErrorKind Unit) (t : Transaction) :
    Except ErrorKind Unit × Transaction × List Nat :=
  if t.done then (.ok (), t, [])
  else
    match t.rollbackStmt with
    | some s => (exec s, { t with done := true, rollbackStmt := none }, [s])
    | none => (.ok (), { t with done := true, rollbackStmt := none }, [])

/-- Mirror of `Drop for Transaction` (src/transaction.rs lines 147-163): if
the transaction is unresolved, take out the `rollback` statement and drive
its execution to completion with `block_on`, ignoring the result; if `done`
is set, no engine call is made. -/
def Transaction.drop (t : Transaction) : Transaction × List Nat :=
  if t.done then (t, [])
  else
    match t.rollbackStmt with
    | some s => ({ t with rollbackStmt := none }, [s])
    | none => ({ t with rollbackStmt := none }, [])

/-- A resolution attempt during a transaction's lifetime. -/
inductive TxOp where
  | commitOp
  | rollbackOp
  | dropOp
deriving DecidableEq, Repr

def applyOp (exec : Nat → Except ErrorKind Unit) (t : Transaction) :
    TxOp → Transaction × List Nat
  | .commitOp => ((t.commit exec).2.1, (t.commit exec).2.2)
  | .rollbackOp => ((t.rollback exec).2.1, (t.rollback exec).2.2)
  | .dropOp => t.drop

/-- Run a sequence of resolution attempts, concatenating the statements each
one executes against the engine. -/
def runOps (exec : Nat → Except ErrorKind Unit) (t : Transaction) :
    List TxOp → Transaction × List Nat
  | [] => (t, [])
  | op :: ops =>
    let step := applyOp exec t op
    let rest := runOps exec step.1 ops
    (rest.1, step.2 ++ rest.2)

/- ========= Decimal representation helpers (for savepoint-name claims) ========= -/

/-- The decimal digit characters of `n`, most significant first: the
reference semantics of core's `Nat.toDigitsCore` at base 10. -/
def decChars (n : Nat) : List Char :=
  if _h : n < 10 then [Nat.digitChar n]
  else decChars (n / 10) ++ [Nat.digitChar (n % 10)]
decreasing_by exact Nat.div_lt_self (by omega) (by omega)

/-- Decimal evaluation of a digit string (left fold). -/
def decVal (l : List Char) : Nat :=
  l.foldl (fun a c => a * 10 + (c.toNat - 48)) 0

theorem toDigitsCore_eq_decChars (fuel : Nat) :
    ∀ n ds, n < fuel → Nat.toDigitsCore 10 fuel n ds = decChars n ++ ds := by
  induction fuel with
  | zero => intro n ds h; omega
  | succ fuel ih =>
    intro n ds h
    rw [Nat.toDigitsCore]
    by_cases h10 : n < 10
    · have hz : n / 10 = 0 := Nat.div_eq_of_lt h10
      have hm : n % 10 = n := Nat.mod_eq_of_lt h10
      rw [decChars]
      simp [hz, hm, h10]
    · have hz : ¬ n / 10 = 0 := by
        intro hc
        exact h10 (by omega)
      have hlt : n / 10 < fuel := by
        have hdl : n / 10 < n := Nat.div_lt_self (by omega) (by omega)
        omega
      rw [decChars]
      simp only [h10, dite_false, dif_neg]
      simp only [if_neg hz]
      rw [ih (n / 10) (Nat.digitChar (n % 10) :: ds) hlt]
      simp

theorem repr_eq_decChars (n : Nat) : Nat.repr n = (decChars n).asString := by
  rw [Nat.repr, Nat.toDigits, toDigitsCore_eq_decChars (n + 1) n [] (by omega)]
  simp

theorem digitChar_toNat (n : Nat) (hn : n < 10) : (Nat.digitChar n).toNat - 48 = n := by
  interval_cases n <;> decide

theorem decChars_foldl (n : Nat) :
    ∀ a, List.foldl (fun a c => a * 10 + (c.toNat - 48)) a (decChars n) =
      a * 10 ^ (decChars n).length + n := by
  induction n using Nat.strong_induction_on with
  | _ n ih =>
    intro a
    by_cases h : n < 10
    · rw [decChars]
      simp only [h, dite_true, dif_pos]
      simp [digitChar_toNat n h]
    · have hd : n / 10 < n := Nat.div_lt_self (by omega) (by omega)
      rw [decChars]
      simp only [h, dite_false, dif_neg]
      rw [List.foldl_append]
      simp only [List.foldl_cons, List.foldl_nil]
      rw [ih (n / 10) hd a]
      rw [digitChar_toNat (n % 10) (Nat.mod_lt n (by omega))]
      simp only [List.length_append, List.length_cons, List.length_nil]
      have hnm : n / 10 * 10 + n % 10 = n := by omega
      rw [pow_succ]
      ring_nf
      omega

theorem decVal_decChars (n : Nat) : decVal (decChars n) = n := by
  rw [decVal, decChars_foldl n 0]
  simp

theorem decChars_injective : Function.Injective decChars := by
  intro m n h
  have := decVal_decChars m
  rw [h, decVal_decChars n] at this
  omega

theorem natRepr_injective : Function.Injective Nat.repr := by
  intro m n h
  rw [repr_eq_decChars, repr_eq_decChars] at h
  apply decChars_injective
  have : (decChars m).asString.data = (decChars n).asString.data := by rw [h]
  simpa [List.asString] using this

/-- The initial combinator state of the C4 scenario: an inner operation that
always resolves Busy, wrapped with the two-delay schedule [5, 7]. -/
def c4Start : BackoffFuture Unit :=
  { inner := fun _ => some (.error .busy), innerPolls := 0, delay := none, backoff := [5, 7] }

/- ========= Theorems ========= -/

theorem splitAux_join (l : List Char)
    (hsp : ∀ c ∈ l, c ≠ qc ∧ c ≠ '(' ∧ c ≠ ')')
    (hlast : l.getLast? ≠ some ';') :
    ∀ acc, joinSemi (splitAux [] acc l) = acc.reverse ++ l := by
  induction l with
  | nil =>
    intro acc
    cases acc <;> simp [splitAux, finishScan, joinSemi]
  | cons c rest ih =>
    intro acc
    obtain ⟨hq, hp, hrp⟩ := hsp c (by simp)
    have hsp2 : ∀ x ∈ rest, x ≠ qc ∧ x ≠ '(' ∧ x ≠ ')' := by
      intro x hx
      exact hsp x (by simp [hx])
    by_cases hc : c = ';'
    · subst hc
      have hr : rest ≠ [] := by
        intro h0
        subst h0
        simp [List.getLast?] at hlast
      have hlast2 : rest.getLast? ≠ some ';' := by
        cases rest with
        | nil => simp
        | cons x xs => rw [List.getLast?_cons_cons] at hlast; exact hlast
      have ihr := ih hsp2 hlast2 []
      have hS : splitAux [] [] rest ≠ [] := by
        intro h0
        rw [h0] at ihr
        simp [joinSemi] at ihr
        exact hr ihr
      obtain ⟨s, ss, hss⟩ := List.exists_cons_of_ne_nil hS
      rw [splitAux]
      simp only [if_pos rfl]
      rw [hss] at ihr ⊢
      cases ss with
      | nil => simp [joinSemi] at ihr ⊢; simp [ihr]
      | cons s2 ss2 => simp [joinSemi] at ihr ⊢; simp [ihr]
    · have hlast2 : rest.getLast? ≠ some ';' := by
        cases rest with
        | nil => simp
        | cons x xs => rw [List.getLast?_cons_cons] at hlast; exact hlast
      have ihr := ih hsp2 hlast2 (c :: acc)
      rw [splitAux]
      simp only [if_neg hc, if_neg hq, if_neg hp]
      rw [ihr]
      simp

/-- C5 counterexample: for the quote-free, paren-free script `"A;"` the
splitter yields the single segment `["A"]`, whose `;`-join is `"A"`, not the
original `"A;"`: the round-trip claim fails on scripts with a trailing
semicolon. -/
theorem splitter_roundtrip_cex :
    split_statement_list ['A', ';'] = [['A']] ∧
    joinSemi (split_statement_list ['A', ';']) ≠ ['A', ';'] := by
  constructor
  · simp [split_statement_list, splitAux, finishScan, qc]
  · simp [split_statement_list, splitAux, finishScan, joinSemi, qc]

/-- C5 (amended): for every input script containing no quote character and no
parenthesis and not ending in `;`, concatenating the segments yielded by the
statement splitter with `;` as separator reproduces the original input
exactly. (A trailing `;` is consumed as a cut point whose empty tail is not
emitted, so it is not reproduced.) -/
theorem splitter_roundtrip (l : List Char)
    (hsp : ∀ c ∈ l, c ≠ qc ∧ c ≠ '(' ∧ c ≠ ')')
    (hlast : l.getLast? ≠ some ';') :
    joinSemi (split_statement_list l) = l := by
  have h := splitAux_join l hsp hlast []
  simpa [split_statement_list] using h

theorem splitter_roundtrip_witness :
    joinSemi (split_statement_list ['A', ';', ' ', 'B']) = ['A', ';', ' ', 'B'] :=
  splitter_roundtrip ['A', ';', ' ', 'B'] (by decide) (by decide)

/-- C6: a `;` inside a quoted string (with `''` an escaped quote) or inside a
parenthesized group is not a split point: `"A 'foo''b;ar' B; C"` splits into
`["A 'foo''b;ar' B", " C"]` and `"A (foo; bar) B; C"` splits into
`["A (foo; bar) B", " C"]`. -/
theorem splitter_quote_group_examples :
    split_statement_list
        (['A', ' ', qc, 'f', 'o', 'o', qc, qc, 'b', ';', 'a', 'r', qc, ' ', 'B']
          ++ [';', ' ', 'C']) =
      [['A', ' ', qc, 'f', 'o', 'o', qc, qc, 'b', ';', 'a', 'r', qc, ' ', 'B'],
        [' ', 'C']] ∧
    split_statement_list "A (foo; bar) B; C".data =
      ["A (foo; bar) B".data, " C".data] := by
  constructor <;> simp [split_statement_list, splitAux, finishScan, qc]

/-- C8 counterexample: decoding `Value::Integer(2^32)` as `u32` does not panic
but silently truncates to `0`, and decoding `Value::Integer(2^31)` as `i32`
silently wraps to `-2^31`: an out-of-range integer decode is not fatal. -/
theorem value_truncation_cex :
    fromValue_u32 (Value.integer (2 ^ 32)) = some 0 ∧
    fromValue_u32 (Value.integer (2 ^ 32)) ≠ none ∧
    fromValue_i32 (Value.integer (2 ^ 31)) = some (-(2 ^ 31)) := by
  refine ⟨?_, ?_, ?_⟩ <;> decide

/-- C8 (amended): decoding a `Value` into u32/i32/usize/u64/i64 panics on a
wrong variant, and on a negative integer for the unsigned targets; in-range
integers decode exactly; but an integer above the target's range is NOT
fatal for u32 (it silently truncates modulo `2^32`) and i32 wraps any
out-of-range integer two's-complement style — silent truncation paths do
exist. -/
theorem value_decode_amended (i : Int) (v : Value) :
    (v.isInteger = false →
      fromValue_u32 v = none ∧ fromValue_i32 v = none ∧ fromValue_usize v = none ∧
      fromValue_u64 v = none ∧ fromValue_i64 v = none) ∧
    (i < 0 →
      fromValue_u32 (.integer i) = none ∧ fromValue_u64 (.integer i) = none ∧
      fromValue_usize (.integer i) = none) ∧
    (0 ≤ i → i < 2 ^ 32 → fromValue_u32 (.integer i) = some i.toNat) ∧
    (-(2 ^ 31) ≤ i → i < 2 ^ 31 → fromValue_i32 (.integer i) = some i) ∧
    (2 ^ 32 ≤ i → fromValue_u32 (.integer i) = some (i.toNat % 2 ^ 32)) ∧
    fromValue_i64 (.integer i) = some i := by
  refine ⟨?_, ?_, ?_, ?_, ?_, ?_⟩
  · intro hv
    cases v <;> simp_all [Value.isInteger, fromValue_u32, fromValue_i32,
      fromValue_usize, fromValue_u64, fromValue_i64]
  · intro hi
    simp [fromValue_u32, fromValue_u64, fromValue_usize, if_neg (by omega : ¬ (0 : Int) ≤ i)]
  · intro h0 h32
    simp only [fromValue_u32, if_pos h0, Option.some.injEq]
    omega
  · intro hlo hhi
    simp only [fromValue_i32, Option.some.injEq]
    omega
  · intro hi
    simp [fromValue_u32, if_pos (by omega : (0 : Int) ≤ i)]
  · simp [fromValue_i64]

theorem value_decode_amended_witness :
    fromValue_u32 (Value.integer 7) = some 7 ∧ fromValue_u32 Value.null = none :=
  ⟨(value_decode_amended 7 Value.null).2.2.1 (by decide) (by decide),
    ((value_decode_amended 7 Value.null).1 (by decide)).1⟩

/-- C1: `try_execute` first steps the engine and maps the outcome: completion
(`Done`) with zero result columns resolves to `None`; completion with one or
more result columns resolves to `Some` of a row stream that yields no items
when consumed; a produced row (`Row`) resolves to `Some` of a row stream
whose first row is already materialized and whose first poll emits it
without stepping the engine again (the step script is untouched). -/
theorem execute_first_step (g : List Nat) (cc : Nat) (rest : List StepStatus) :
    try_execute g 0 (.done :: rest) = (.ok none, rest) ∧
    (0 < cc →
      try_execute g cc (.done :: rest) = (.ok (some (Rows.empty cc g)), rest) ∧
      consumeRows 1 (Rows.empty cc g) [] = some []) ∧
    try_execute g cc (.row :: rest) = (.ok (some (Rows.new cc g)), rest) ∧
    poll_next (Rows.new cc g) rest =
      (.yields (.ok ()), { Rows.new cc g with first_row := false }, rest) := by
  refine ⟨?_, ?_, ?_, ?_⟩
  · simp [try_execute, stepEngine]
  · intro h
    constructor
    · simp [try_execute, stepEngine, if_pos h]
    · simp [consumeRows, poll_next, Rows.empty, stepEngine]
  · simp [try_execute, stepEngine]
  · simp [poll_next, Rows.new]

theorem execute_first_step_witness :
    try_execute [] 1 [.done] = (.ok (some (Rows.empty 1 [])), []) ∧
    consumeRows 1 (Rows.empty 1 []) [] = some [] :=
  (execute_first_step [] 1 []).2.1 (by decide)

/-- C2: consuming a row stream over a statement whose remaining step outcomes
are [Busy, Row, Done] — with the stream's backoff schedule still offering a
delay, as the fresh default generator does — yields exactly one decoded row
and then ends: the busy step only causes a suspension and a re-step, it is
never surfaced as an error and never duplicates or skips a row. -/
theorem rows_busy_row_done (cc d : Nat) (gr : List Nat) :
    consumeRows 3
      { column_count := cc, first_row := false,
        backoff := { delay := none, backoff := d :: gr } }
      [.busy, .row, .done] = some [.ok ()] := rfl

theorem bfRun_busy_armed (sched : List Nat) :
    ∀ (α : Type) (fuel polls dd : Nat) (inner : Nat → Option (Except ErrorKind α)),
      (∀ k, inner k = some (.error .busy)) →
      sched.length + 1 ≤ fuel →
      Option.map (fun p => (p.1, p.2.innerPolls))
          (bfRun fuel { inner := inner, innerPolls := polls, delay := some dd, backoff := sched }) =
        some (.error .busy, polls + sched.length + 1) := by
  induction sched with
  | nil =>
    intro α fuel polls dd inner hbusy hfuel
    cases fuel with
    | zero => omega
    | succ fu =>
      simp [bfRun, BackoffFuture.poll, bfIter, hbusy, isBusyOutcome, ErrorKind.is_busy]
  | cons d ds ih =>
    intro α fuel polls dd inner hbusy hfuel
    cases fuel with
    | zero => simp at hfuel
    | succ fu =>
      have hstep :
          bfRun (fu + 1) { inner := inner, innerPolls := polls, delay := some dd, backoff := d :: ds } =
            bfRun fu { inner := inner, innerPolls := polls + 1, delay := some d, backoff := ds } := by
        simp [bfRun, BackoffFuture.poll, bfIter, hbusy, isBusyOutcome, ErrorKind.is_busy]
      rw [hstep, ih α fu (polls + 1) d inner hbusy (by simp at hfuel; omega)]
      simp
      omega

theorem bfRun_busy_fresh (sched : List Nat) (α : Type) (polls : Nat)
    (inner : Nat → Option (Except ErrorKind α))
    (hbusy : ∀ k, inner k = some (.error .busy)) :
    Option.map (fun p => (p.1, p.2.innerPolls))
        (bfRun (sched.length + 1)
          { inner := inner, innerPolls := polls, delay := none, backoff := sched }) =
      some (.error .busy, polls + sched.length + 1) := by
  cases sched with
  | nil => simp [bfRun, BackoffFuture.poll, bfIter, hbusy, isBusyOutcome, ErrorKind.is_busy]
  | cons d ds =>
    cases ds with
    | nil => simp [bfRun, BackoffFuture.poll, bfIter, hbusy, isBusyOutcome, ErrorKind.is_busy]
    | cons d2 ds2 =>
      have hstep :
          bfRun ((d :: d2 :: ds2).length + 1)
              { inner := inner, innerPolls := polls, delay := none, backoff := d :: d2 :: ds2 } =
            bfRun (ds2.length + 2)
              { inner := inner, innerPolls := polls + 2, delay := some d2, backoff := ds2 } := by
        simp [bfRun, BackoffFuture.poll, bfIter, hbusy, isBusyOutcome, ErrorKind.is_busy]
      rw [hstep, bfRun_busy_armed ds2 α (ds2.length + 2) (polls + 2) d2 inner hbusy (by omega)]
      simp
      omega

/-- C3: wrapping an always-busy operation with a backoff schedule of exactly N
delays, the combinator polls the inner operation N times after the initial
poll (N+1 polls in total) and then resolves with the Busy error — never an
(N+1)-th retry; and whenever the inner operation resolves with a non-busy
outcome (success or another error kind), that outcome is propagated as
final without consulting the backoff generator (schedule and timer state
are left untouched). -/
theorem backoff_combinator (α : Type) (sched : List Nat)
    (inner : Nat → Option (Except ErrorKind α))
    (hbusy : ∀ k, inner k = some (.error .busy)) :
    Option.map (fun p => (p.1, p.2.innerPolls))
        (bfRun (sched.length + 1)
          { inner := inner, innerPolls := 0, delay := none, backoff := sched }) =
      some (.error .busy, sched.length + 1) ∧
    ∀ (f : BackoffFuture α) (r : Except ErrorKind α),
      f.inner f.innerPolls = some r → isBusyOutcome r = false →
      BackoffFuture.poll f = (some r, { f with innerPolls := f.innerPolls + 1 }) := by
  constructor
  · have h := bfRun_busy_fresh sched α 0 inner hbusy
    simpa using h
  · intro f r hr hnb
    simp [BackoffFuture.poll, bfIter, hr, hnb]

theorem backoff_combinator_witness :
    Option.map (fun p => (p.1, p.2.innerPolls))
        (bfRun 3
          { inner := fun _ => some (.error .busy), innerPolls := 0, delay := none,
            backoff := ([4, 8] : List Nat) } :
          Option (Except ErrorKind Unit × BackoffFuture Unit)) =
      some (.error .busy, 3) := by
  have h := (backoff_combinator Unit [4, 8] (fun _ => some (.error .busy)) (fun _ => rfl)).1
  simpa using h

/-- C4 evidence: on the first poll in which the inner operation resolves Busy,
the `delay.is_none()` branch of `BackoffFuture::poll` creates the delay
timer but never polls it and loops, so the busy inner operation is re-polled
immediately, within the same combinator poll, without waiting out the
yielded delay: one poll of `c4Start` performs two inner polls, consumes both
schedule entries, and the 5-duration delay is discarded by the reset to 7
without ever having been awaited. -/
theorem backoff_no_wait_before_first_retry :
    (BackoffFuture.poll c4Start).1 = none ∧
    (BackoffFuture.poll c4Start).2.innerPolls = 2 ∧
    (BackoffFuture.poll c4Start).2.delay = some 7 ∧
    (BackoffFuture.poll c4Start).2.backoff = [] :=
  ⟨rfl, rfl, rfl, rfl⟩

theorem tx_count_aux (exec : Nat → Except ErrorKind Unit) (e r : Nat) (hne : e ≠ r) :
    ∀ (ops : List TxOp) (t : Transaction),
      (t.endStmt = some e ∨ t.endStmt = none) →
      (t.rollbackStmt = some r ∨ t.rollbackStmt = none) →
      List.count e (runOps exec t ops).2 ≤ (if t.endStmt = some e then 1 else 0) := by
  intro ops
  induction ops with
  | nil =>
    intro t he hr
    simp [runOps]
  | cons op ops ih =>
    intro t he hr
    cases op with
    | commitOp =>
      by_cases hd : t.done
      · have hc : Transaction.commit exec t = (.ok (), t, []) := by
          simp [Transaction.commit, hd]
        simpa [runOps, applyOp, hc] using ih t he hr
      · rcases he with he | he
        · have hc : Transaction.commit exec t =
              (exec e, { t with done := true, endStmt := none }, [e]) := by
            simp [Transaction.commit, hd, he]
          have hrest := ih { t with done := true, endStmt := none } (Or.inr rfl) hr
          simp only [if_neg (by simp : ¬ (none : Option Nat) = some e)] at hrest
          simp [runOps, applyOp, hc, he, List.count_cons]
          omega
        · have hc : Transaction.commit exec t =
              (.ok (), { t with done := true, endStmt := none }, []) := by
            simp [Transaction.commit, hd, he]
          have hrest := ih { t with done := true, endStmt := none } (Or.inr rfl) hr
          simp only [if_neg (by simp : ¬ (none : Option Nat) = some e)] at hrest
          simp [runOps, applyOp, hc, he]
          omega
    | rollbackOp =>
      by_cases hd : t.done
      · have hc : Transaction.rollback exec t = (.ok (), t, []) := by
          simp [Transaction.rollback, hd]
        simpa [runOps, applyOp, hc] using ih t he hr
      · rcases hr with hr | hr
        · have hc : Transaction.rollback exec t =
              (exec r, { t with done := true, rollbackStmt := none }, [r]) := by
            simp [Transaction.rollback, hd, hr]
          have hrest := ih { t with done := true, rollbackStmt := none } he (Or.inr rfl)
          have hcount : List.count e [r] = 0 := by
            simp [List.count_singleton, hne]
          simp only [runOps, applyOp, hc]
          simp only [List.count_append, hcount, Nat.zero_add]
          exact hrest
        · have hc : Transaction.rollback exec t =
              (.ok (), { t with done := true, rollbackStmt := none }, []) := by
            simp [Transaction.rollback, hd, hr]
          simpa [runOps, applyOp, hc] using ih { t with done := true, rollbackStmt := none } he (Or.inr rfl)
    | dropOp =>
      by_cases hd : t.done
      · have hc : Transaction.drop t = (t, []) := by
          simp [Transaction.drop, hd]
        simpa [runOps, applyOp, hc] using ih t he hr
      · rcases hr with hr | hr
        · have hc : Transaction.drop t = ({ t with rollbackStmt := none }, [r]) := by
            simp [Transaction.drop, hd, hr]
          have hrest := ih { t with rollbackStmt := none } he (Or.inr rfl)
          have hcount : List.count e [r] = 0 := by
            simp [List.count_singleton, hne]
          simp only [runOps, applyOp, hc]
          simp only [List.count_append, hcount, Nat.zero_add]
          exact hrest
        · have hc : Transaction.drop t = ({ t with rollbackStmt := none }, []) := by
            simp [Transaction.drop, hd, hr]
          simpa [runOps, applyOp, hc] using ih { t with rollbackStmt := none } he (Or.inr rfl)

/-- C7: the resolve-as-success (`end`) statement is executed at most once over
any sequence of resolution attempts in a transaction's lifetime; the first
commit executes exactly it and sets the `done` flag; and on a transaction
whose `done` flag is set, commit and rollback perform no engine call and
return success immediately, and drop performs no engine call. -/
theorem transaction_commit_once (exec : Nat → Except ErrorKind Unit) (e r : Nat)
    (hne : e ≠ r) (ops : List TxOp) :
    List.count e
        (runOps exec { done := false, endStmt := some e, rollbackStmt := some r } ops).2 ≤ 1 ∧
    Transaction.commit exec { done := false, endStmt := some e, rollbackStmt := some r } =
      (exec e, { done := true, endStmt := none, rollbackStmt := some r }, [e]) ∧
    ∀ t : Transaction, t.done = true →
      Transaction.commit exec t = (.ok (), t, []) ∧
      Transaction.rollback exec t = (.ok (), t, []) ∧
      Transaction.drop t = (t, []) := by
  refine ⟨?_, ?_, ?_⟩
  · have h := tx_count_aux exec e r hne ops
      { done := false, endStmt := some e, rollbackStmt := some r } (Or.inl rfl) (Or.inl rfl)
    simpa using h
  · simp [Transaction.commit]
  · intro t ht
    refine ⟨?_, ?_, ?_⟩ <;> simp [Transaction.commit, Transaction.rollback, Transaction.drop, ht]

theorem transaction_commit_once_witness :
    List.count 0
        (runOps (fun _ => .ok ()) { done := false, endStmt := some 0, rollbackStmt := some 1 }
          [TxOp.commitOp, TxOp.commitOp, TxOp.dropOp]).2 ≤ 1 :=
  (transaction_commit_once (fun _ => .ok ()) 0 1 (by decide)
    [TxOp.commitOp, TxOp.commitOp, TxOp.dropOp]).1

/-- C10: dropping a transaction whose `done` flag is still false resolves it by
executing the resolve-as-failure (`rollback`) statement — auto-rollback, not
auto-commit: the effect list is `[r]`, never the `end` statement — while a
transaction whose `done` flag is set is dropped with no engine call. (The
source drives the rollback to completion with `futures::executor::block_on`
inside `drop`; the model's `Transaction.drop` returns the completed
execution.) -/
theorem transaction_drop_auto_rollback (e r : Nat) :
    Transaction.drop { done := false, endStmt := some e, rollbackStmt := some r } =
      ({ done := false, endStmt := some e, rollbackStmt := none }, [r]) ∧
    ∀ t : Transaction, t.done = true → Transaction.drop t = (t, []) := by
  constructor
  · simp [Transaction.drop]
  · intro t ht
    simp [Transaction.drop, ht]

theorem transaction_drop_auto_rollback_witness :
    Transaction.drop { done := true, endStmt := some 0, rollbackStmt := some 1 } =
      ({ done := true, endStmt := some 0, rollbackStmt := some 1 }, []) :=
  (transaction_drop_auto_rollback 0 1).2
    { done := true, endStmt := some 0, rollbackStmt := some 1 } rfl

theorem iterConn_counter (c : Connection) :
    ∀ k, (iterConn c k).next_savepoint = c.next_savepoint + k := by
  intro k
  induction k with
  | zero => simp [iterConn]
  | succ k ih => simp [iterConn, anonymous_savepoint_name, ih]; omega

/-- C9: each call to `anonymous_savepoint_name` returns a name formatted from
the current value of the connection's savepoint counter and increments the
counter, so the counter after `k` calls is the initial value plus `k`
(strictly increasing, no value ever reused), the name drawn by the `k`-th
call is `"anon"` followed by the decimal form of the `k`-th counter value,
and the names drawn by any two distinct calls — in particular two
successive anonymous savepoints — are distinct. -/
theorem savepoint_names_distinct (c : Connection) :
    (∀ k, (iterConn c k).next_savepoint = c.next_savepoint + k) ∧
    (∀ k, nameAt c k = "anon" ++ Nat.repr (c.next_savepoint + k)) ∧
    (∀ i j, i ≠ j → nameAt c i ≠ nameAt c j) := by
  have hname : ∀ k, nameAt c k = "anon" ++ Nat.repr (c.next_savepoint + k) := by
    intro k
    simp [nameAt, anonymous_savepoint_name, iterConn_counter c k]
  refine ⟨iterConn_counter c, hname, ?_⟩
  intro i j hij hEq
  rw [hname i, hname j] at hEq
  have hdata := congrArg String.data hEq
  simp only [String.data_append] at hdata
  have hrepr : Nat.repr (c.next_savepoint + i) = Nat.repr (c.next_savepoint + j) :=
    String.ext (List.append_cancel_left hdata)
  have := natRepr_injective hrepr
  omega

theorem savepoint_names_distinct_witness :
    nameAt { next_savepoint := 0 } 0 ≠ nameAt { next_savepoint := 0 } 1 :=
  (savepoint_names_distinct { next_savepoint := 0 }).2.2 0 1 (by decide)
